import Mathlib

/-!
Verification of the core search logic of eth-block-search
(src/findBlockBeforeDate.ts): a binary search over block heights that
locates the latest block whose timestamp is strictly earlier than a target
time, plus the numeric target parsing.

Shallow embedding conventions:
  - JS bigint and number values that hold integers are modeled as Lean Int
    (the source uses bigint for heights, so height arithmetic is exact;
    timestamps fit well inside the exact double range for this code).
  - The two remote oracle operations (eth_blockNumber and
    eth_getBlockByNumber over JSON-RPC) are modeled as fields of an Oracle
    record returning Except String, a thrown Error being the .error case.
  - The while loop of the source is embedded as structural recursion on an
    explicit fuel argument; searchLoop supplies fuel equal to the size of
    the initial search interval, which is proved sufficient below.
-/

namespace EthBlockSearch

/-- A block as seen by the algorithm, source type RpcBlock. The source
fields number and parentHash are never read by the search, and timestamp is
read only through Number(hexToBigInt(b.timestamp)), so the embedding keeps
the decoded integer timestamp and the opaque hash string. Timestamps
decoded from the 0x-prefixed hex strings of the wire format are always
nonnegative; theorems that need this take it as a hypothesis. -/
structure RpcBlock where
  timestamp : Int
  hash : String
deriving DecidableEq

/-- The record returned by findBlockBeforeDate on success
({ number, hash, timestamp } in the source). -/
structure FoundBlock where
  number : Int
  hash : String
  timestamp : Int
deriving DecidableEq

/-- The best-so-far candidate of the binary search, source
candidate : { n: bigint; ts: number; hash: string } | null; the null case
is Option.none at the use sites. -/
structure Candidate where
  n : Int
  ts : Int
  hash : String
deriving DecidableEq

/-- The two oracle operations the search consumes, source functions
getLatestBlockNumber(url) and getBlockByNumber(url, n) with the url fixed.
Both may throw (HTTP failure, RPC-level error, missing block), modeled as
Except String. -/
structure Oracle where
  getLatestBlockNumber : Except String Int
  getBlockByNumber : Int → Except String RpcBlock

/-- JS bigint arithmetic right shift by one, source expression
(lo + hi) >> 1n: floor division by 2 (also on negative values). -/
def bigintShr1 (x : Int) : Int := Int.fdiv x 2

/-- On Lean Int, division by a positive constant is Euclidean division,
which agrees with floor division, so bigintShr1 is plain division by 2. -/
theorem bigintShr1_eq (x : Int) : bigintShr1 x = x / 2 :=
  Int.fdiv_eq_ediv x (by norm_num)

/-- The while loop of findBlockBeforeDate (source lines 94-105), with an
explicit fuel argument so that the recursion is structural. One fuel unit
is consumed per iteration; searchLoop below instantiates the fuel with the
size of the interval [lo, hi], which shrinks by at least half on every
iteration, so that fuel is never exhausted before lo > hi. -/
def whileLoop (blockAt : Int → Except String RpcBlock) (target : Int) :
    Nat → Int → Int → Option Candidate → Except String (Option Candidate)
  | 0, _, _, cand => .ok cand
  | fuel + 1, lo, hi, cand =>
    if lo ≤ hi then
      let mid := bigintShr1 (lo + hi)
      match blockAt mid with
      | .error e => .error e
      | .ok b =>
        if b.timestamp < target then
          whileLoop blockAt target fuel (mid + 1) hi (some ⟨mid, b.timestamp, b.hash⟩)
        else
          whileLoop blockAt target fuel lo (mid - 1) cand
    else
      .ok cand

/-- The binary-search loop over [lo, hi] starting from a given candidate;
in the source the loop always starts at lo = 0, hi = latestNum,
candidate = null. -/
def searchLoop (blockAt : Int → Except String RpcBlock) (target lo hi : Int)
    (cand : Option Candidate) : Except String (Option Candidate) :=
  whileLoop blockAt target (hi + 1 - lo).toNat lo hi cand

/-- The sequence of heights passed to the block oracle by the loop, in
probe order, following exactly the recursion of whileLoop (a failing probe
is recorded and the loop stops, as the thrown error aborts it). -/
def whileLoopProbes (blockAt : Int → Except String RpcBlock) (target : Int) :
    Nat → Int → Int → List Int
  | 0, _, _ => []
  | fuel + 1, lo, hi =>
    if lo ≤ hi then
      let mid := bigintShr1 (lo + hi)
      mid ::
        (match blockAt mid with
         | .error _ => []
         | .ok b =>
           if b.timestamp < target then
             whileLoopProbes blockAt target fuel (mid + 1) hi
           else
             whileLoopProbes blockAt target fuel lo (mid - 1))
    else
      []

/-- Heights probed by searchLoop on [lo, hi]. -/
def searchProbes (blockAt : Int → Except String RpcBlock) (target lo hi : Int) :
    List Int :=
  whileLoopProbes blockAt target (hi + 1 - lo).toNat lo hi

/-- Number of oracle calls made by the binary-search loop on [lo, hi]. -/
def searchCalls (blockAt : Int → Except String RpcBlock) (target lo hi : Int) :
    Nat :=
  (searchProbes blockAt target lo hi).length

/-- findBlockBeforeDate (source lines 71-117): fetch latest height and the
latest block, apply the two fast paths (target ≤ 0 returns null; target
beyond the latest timestamp returns the latest block), otherwise binary
search over [0, latestNum] and convert the candidate (or null) into the
result record. -/
def findBlockBeforeDate (o : Oracle) (targetUnixSec : Int) :
    Except String (Option FoundBlock) :=
  match o.getLatestBlockNumber with
  | .error e => .error e
  | .ok latestNum =>
    match o.getBlockByNumber latestNum with
    | .error e => .error e
    | .ok latest =>
      let latestTs := latest.timestamp
      if targetUnixSec ≤ 0 then
        .ok none
      else if targetUnixSec > latestTs then
        .ok (some { number := latestNum, hash := latest.hash, timestamp := latestTs })
      else
        match searchLoop o.getBlockByNumber targetUnixSec 0 latestNum none with
        | .error e => .error e
        | .ok none => .ok none
        | .ok (some c) =>
          .ok (some { number := c.n, hash := c.hash, timestamp := c.ts })

/-- JS String.prototype.trim, modeled over the character list with the
whitespace test of the host (space, tab, line terminators, ...). -/
def jsTrim (s : String) : String :=
  ⟨((s.data.dropWhile Char.isWhitespace).reverse.dropWhile Char.isWhitespace).reverse⟩

/-- The test of the source regex matching an optional leading minus sign
followed by one or more ASCII digits. -/
def isSignedDigits (s : String) : Bool :=
  match s.data with
  | [] => false
  | '-' :: rest => !rest.isEmpty && rest.all Char.isDigit
  | cs => cs.all Char.isDigit

/-- Decimal value of a digit list, most significant first. -/
def decimalDigitsToNat (cs : List Char) : Nat :=
  cs.foldl (fun acc c => acc * 10 + (c.toNat - 48)) 0

/-- Exact value of the JS conversion Number(s) for a string matching the
regex above (an optional minus sign then digits). JS numbers are IEEE
doubles: the conversion is exact for magnitudes below 2^53, rounds above
that, and overflows to Infinity at the boundary 2^1024 - 2^970. The
embedding keeps the exact integer; the rounding of the finite band
[2^53, 2^1024 - 2^970) is not modeled, and the parse theorems below
restrict their claims to the exact band, stating the overflow band only
through the Number.isFinite guard. -/
def parseDecimalInt (s : String) : Int :=
  match s.data with
  | '-' :: rest => -(decimalDigitsToNat rest : Int)
  | cs => (decimalDigitsToNat cs : Int)

/-- The Number.isFinite test of the source on the exact value of a signed
digit string: rounding to nearest yields Infinity exactly when the
magnitude reaches the IEEE double overflow boundary 2^1024 - 2^970. -/
def jsNumberIsFinite (n : Int) : Bool :=
  decide (n.natAbs < 2 ^ 1024 - 2 ^ 970)

/-- parseTargetToUnixSeconds (source lines 46-57). The calendar-date
branch delegates to the host Date.parse, which returns epoch milliseconds
or NaN; it is modeled by the parameter dateParseMs, with none standing for
NaN. Math.floor of a division by 1000 is floor division, Int.fdiv. The
source applies Number to the untrimmed input, but Number itself ignores
surrounding whitespace, so its value is parseDecimalInt of the trimmed
string. -/
def parseTargetToUnixSeconds (dateParseMs : String → Option Int)
    (input : String) : Except String Int :=
  if isSignedDigits (jsTrim input) then
    let n := parseDecimalInt (jsTrim input)
    if jsNumberIsFinite n then
      .ok (if n > 10000000000 then Int.fdiv n 1000 else n)
    else
      .error "Invalid numeric date."
  else
    match dateParseMs input with
    | none => .error ("Unrecognized date format: " ++ input)
    | some ms => .ok (Int.fdiv ms 1000)

/-- A signed digit string, a one followed by 309 zeros, whose value
10^309 lies beyond the double overflow boundary, so the source throws
Invalid numeric date on it. -/
def overflowInput : String := ⟨'1' :: List.replicate 309 '0'⟩

/-- Test oracle reading a fixed list of timestamps: height h gets
timestamp tss[h] and hash "h" ++ h; any other height is an error, as
getBlockByNumber throws on a missing block. -/
def blockAtOf (tss : List Int) : Int → Except String RpcBlock := fun h =>
  if hh : 0 ≤ h ∧ h.toNat < tss.length then
    .ok ⟨tss.get ⟨h.toNat, hh.2⟩, "h" ++ toString h.toNat⟩
  else
    .error "Block not found"

/-- Test oracle whose chain is a fixed list of timestamps. -/
def oracleOf (tss : List Int) : Oracle :=
  ⟨.ok ((tss.length : Int) - 1), blockAtOf tss⟩

/-- The boundary-scenario chain of the specification: heights 0..5 with
timestamps [100, 200, 200, 300, 400, 500]. -/
def chain6 : Oracle := oracleOf [100, 200, 200, 300, 400, 500]

/-- The chain6 oracle with a transport failure injected at height 4, the
second height the binary search probes for target 250. -/
def chain6FailAt4 : Oracle :=
  ⟨.ok 5, fun h =>
    if h = 4 then .error "RPC HTTP 500" else blockAtOf [100, 200, 200, 300, 400, 500] h⟩

/-- The midpoint of a nonempty interval lies inside the interval. -/
theorem bigintShr1_mem {lo hi : Int} (h : lo ≤ hi) :
    lo ≤ bigintShr1 (lo + hi) ∧ bigintShr1 (lo + hi) ≤ hi := by
  rw [bigintShr1_eq]; omega

/-- Main loop invariant. Over any oracle that behaves like the total
function f on [0, N] with nondecreasing timestamps, the loop run on a
subinterval [lo, hi] of [0, N] succeeds, provided: every height above hi
is already known not to qualify, the candidate (if any) is the qualifying
block at height lo - 1, and an absent candidate means lo is still 0.  The
returned candidate is then a qualifying block that is maximal among
heights of [0, N], and an empty result means no height of [0, N]
qualifies. -/
theorem whileLoop_ok_spec
    (blockAt : Int → Except String RpcBlock) (target N : Int) (f : Int → RpcBlock)
    (hf : ∀ h : Int, 0 ≤ h → h ≤ N → blockAt h = .ok (f h))
    (mono : ∀ h h' : Int, 0 ≤ h → h ≤ h' → h' ≤ N →
      (f h).timestamp ≤ (f h').timestamp) :
    ∀ (fuel : Nat) (lo hi : Int) (cand : Option Candidate),
      (hi + 1 - lo).toNat ≤ fuel →
      0 ≤ lo → hi ≤ N →
      (∀ h : Int, hi < h → h ≤ N → target ≤ (f h).timestamp) →
      (∀ c : Candidate, cand = some c → c.n = lo - 1 ∧ 0 ≤ c.n ∧ c.n ≤ N ∧
        c.ts = (f c.n).timestamp ∧ c.hash = (f c.n).hash ∧
        (f c.n).timestamp < target) →
      (cand = none → lo = 0) →
      ∃ res : Option Candidate,
        whileLoop blockAt target fuel lo hi cand = .ok res ∧
        (∀ c : Candidate, res = some c →
          0 ≤ c.n ∧ c.n ≤ N ∧ c.ts = (f c.n).timestamp ∧
          c.hash = (f c.n).hash ∧ (f c.n).timestamp < target ∧
          ∀ h : Int, c.n < h → h ≤ N → target ≤ (f h).timestamp) ∧
        (res = none → ∀ h : Int, 0 ≤ h → h ≤ N → target ≤ (f h).timestamp) := by
  intro fuel
  induction fuel with
  | zero =>
    intro lo hi cand hfuel hlo hhiN habove hcand hnone
    refine ⟨cand, rfl, ?_, ?_⟩
    · intro c hc
      obtain ⟨hcn, hcn0, hcnN, hcts, hchash, hclt⟩ := hcand c hc
      exact ⟨hcn0, hcnN, hcts, hchash, hclt,
        fun h hgt hle => habove h (by omega) hle⟩
    · intro hn h h0 hle
      have hlo0 := hnone hn
      exact habove h (by omega) hle
  | succ fuel ih =>
    intro lo hi cand hfuel hlo hhiN habove hcand hnone
    by_cases hlh : lo ≤ hi
    · have hmid := bigintShr1_mem hlh
      have hmid0 : 0 ≤ bigintShr1 (lo + hi) := le_trans hlo hmid.1
      have hmidN : bigintShr1 (lo + hi) ≤ N := le_trans hmid.2 hhiN
      have hbm := hf (bigintShr1 (lo + hi)) hmid0 hmidN
      simp only [whileLoop, if_pos hlh, hbm]
      by_cases hts : (f (bigintShr1 (lo + hi))).timestamp < target
      · rw [if_pos hts]
        apply ih (bigintShr1 (lo + hi) + 1) hi
          (some ⟨bigintShr1 (lo + hi), (f (bigintShr1 (lo + hi))).timestamp,
            (f (bigintShr1 (lo + hi))).hash⟩)
        · omega
        · omega
        · exact hhiN
        · exact habove
        · intro c hc
          cases hc
          refine ⟨?_, hmid0, hmidN, rfl, rfl, hts⟩
          show bigintShr1 (lo + hi) = bigintShr1 (lo + hi) + 1 - 1
          omega
        · intro habs; cases habs
      · rw [if_neg hts]
        apply ih lo (bigintShr1 (lo + hi) - 1) cand
        · omega
        · exact hlo
        · omega
        · intro h hgt hle
          exact le_trans (not_lt.mp hts)
            (mono (bigintShr1 (lo + hi)) h hmid0 (by omega) hle)
        · exact hcand
        · exact hnone
    · simp only [whileLoop, if_neg hlh]
      refine ⟨cand, rfl, ?_, ?_⟩
      · intro c hc
        obtain ⟨hcn, hcn0, hcnN, hcts, hchash, hclt⟩ := hcand c hc
        exact ⟨hcn0, hcnN, hcts, hchash, hclt,
          fun h hgt hle => habove h (by omega) hle⟩
      · intro hn h h0 hle
        have hlo0 := hnone hn
        exact habove h (by omega) hle

/-- Unfolding of findBlockBeforeDate in the regime where the binary search
actually runs: both initial fetches succeed, the target is positive and
not beyond the latest timestamp. -/
theorem findBlockBeforeDate_search (o : Oracle) (N : Int) (latest : RpcBlock)
    (target : Int)
    (hlatest : o.getLatestBlockNumber = .ok N)
    (hblock : o.getBlockByNumber N = .ok latest)
    (hpos : 0 < target) (hle : target ≤ latest.timestamp) :
    findBlockBeforeDate o target =
      match searchLoop o.getBlockByNumber target 0 N none with
      | .error e => .error e
      | .ok none => .ok none
      | .ok (some c) => .ok (some ⟨c.n, c.hash, c.ts⟩) := by
  unfold findBlockBeforeDate
  simp only [hlatest, hblock]
  rw [if_neg (by omega), if_neg (by omega)]

/-- Total block function of the boundary-scenario chain, used to
instantiate the correctness theorems on chain6. -/
def chain6f : Int → RpcBlock := fun h =>
  ⟨[100, 200, 200, 300, 400, 500].getD h.toNat 0, "h" ++ toString h.toNat⟩

/-- On heights 0..5 the chain6 oracle returns exactly chain6f. -/
theorem chain6f_agrees : ∀ h : Int, 0 ≤ h → h ≤ 5 →
    chain6.getBlockByNumber h = .ok (chain6f h) := by
  intro h h0 h5
  interval_cases h <;> rfl

/-- The chain6 timestamps are nondecreasing in the height. -/
theorem chain6f_mono : ∀ h h' : Int, 0 ≤ h → h ≤ h' → h' ≤ 5 →
    (chain6f h).timestamp ≤ (chain6f h').timestamp := by
  intro h h' h0 hhh' h'5
  have h5 : h ≤ 5 := le_trans hhh' h'5
  interval_cases h <;> interval_cases h' <;> decide

/-- C1: for every nonnegative latest height, every timestamp oracle that is
nondecreasing over [0, latestHeight], and every target with
0 < target ≤ latest timestamp, a non-None search result has a timestamp
strictly below the target, and no greater height within [0, latestHeight]
has a timestamp strictly below the target (strictness and maximality); on
the chain [100, 200, 200, 300, 400, 500] with target 250 the result is
height 2 (timestamp 200). -/
theorem c1_result_strict_and_maximal :
    (∀ (o : Oracle) (N : Int) (f : Int → RpcBlock) (target : Int) (r : FoundBlock),
      0 ≤ N →
      o.getLatestBlockNumber = .ok N →
      (∀ h : Int, 0 ≤ h → h ≤ N → o.getBlockByNumber h = .ok (f h)) →
      (∀ h h' : Int, 0 ≤ h → h ≤ h' → h' ≤ N →
        (f h).timestamp ≤ (f h').timestamp) →
      0 < target → target ≤ (f N).timestamp →
      findBlockBeforeDate o target = .ok (some r) →
      r.timestamp < target ∧
        ∀ h : Int, r.number < h → h ≤ N → ¬ (f h).timestamp < target) ∧
    findBlockBeforeDate chain6 250 = .ok (some ⟨2, "h2", 200⟩) := by
  constructor
  · intro o N f target r hN hlatest hf mono hpos hle hres
    rw [findBlockBeforeDate_search o N (f N) target hlatest (hf N hN le_rfl)
      hpos hle] at hres
    obtain ⟨res, heq, hsome, hnone⟩ :=
      whileLoop_ok_spec o.getBlockByNumber target N f hf mono
        (N + 1 - 0).toNat 0 N none le_rfl le_rfl le_rfl
        (fun h h1 h2 => absurd h2 (not_le.mpr h1))
        (fun c hc => Option.noConfusion hc)
        (fun _ => rfl)
    have heq' : searchLoop o.getBlockByNumber target 0 N none = .ok res := heq
    rw [heq'] at hres
    cases res with
    | none => simp at hres
    | some c =>
      obtain ⟨hc0, hcN, hcts, hchash, hclt, hmax⟩ := hsome c rfl
      simp only [Except.ok.injEq, Option.some.injEq] at hres
      subst hres
      refine ⟨?_, ?_⟩
      · show c.ts < target
        rw [hcts]; exact hclt
      · intro h hh hle2
        exact not_lt.mpr (hmax h hh hle2)
  · rfl

/-- Witness for C1, instantiating the general statement on the chain6
oracle with target 250 and the result at height 2. -/
theorem c1_witness :
    ((⟨2, "h2", 200⟩ : FoundBlock).timestamp < 250 ∧
      ∀ h : Int, (⟨2, "h2", 200⟩ : FoundBlock).number < h → h ≤ 5 →
        ¬ (chain6f h).timestamp < 250) :=
  c1_result_strict_and_maximal.1 chain6 5 chain6f 250 ⟨2, "h2", 200⟩
    (by norm_num) rfl chain6f_agrees chain6f_mono
    (by norm_num) (by decide) rfl

/-- C2: whenever the two initial fetches succeed and the target is strictly
beyond the latest timestamp, the search returns exactly the latest block
(height, hash, timestamp).  The oracle is arbitrary at every other height
(it may even fail everywhere else), so the binary search contributes
nothing.  Timestamps decoded from the hex wire format are nonnegative,
which is taken as the hypothesis 0 ≤ latest.timestamp. -/
theorem c2_target_beyond_latest (o : Oracle) (N : Int) (latest : RpcBlock)
    (target : Int)
    (hlatest : o.getLatestBlockNumber = .ok N)
    (hblock : o.getBlockByNumber N = .ok latest)
    (hts0 : 0 ≤ latest.timestamp)
    (hgt : latest.timestamp < target) :
    findBlockBeforeDate o target =
      .ok (some ⟨N, latest.hash, latest.timestamp⟩) := by
  unfold findBlockBeforeDate
  simp only [hlatest, hblock]
  rw [if_neg (by omega), if_pos (by omega)]

/-- Witness for C2: chain6 with target 1000 (beyond the latest timestamp
500) yields the latest block, height 5. -/
theorem c2_witness :
    findBlockBeforeDate chain6 1000 = .ok (some ⟨5, "h5", 500⟩) :=
  c2_target_beyond_latest chain6 5 ⟨500, "h5"⟩ 1000 rfl rfl
    (by norm_num) (by norm_num)

/-- C3: whenever the two initial fetches succeed and the target is at most
zero, the search returns None.  The oracle is arbitrary at every height
other than the latest (in particular at height 0, whose timestamp is never
consulted), and the returned value does not depend on any chain
timestamp. -/
theorem c3_nonpositive_target (o : Oracle) (N : Int) (latest : RpcBlock)
    (target : Int)
    (hlatest : o.getLatestBlockNumber = .ok N)
    (hblock : o.getBlockByNumber N = .ok latest)
    (hle : target ≤ 0) :
    findBlockBeforeDate o target = .ok none := by
  unfold findBlockBeforeDate
  simp only [hlatest, hblock]
  rw [if_pos hle]

/-- Witness for C3: chain6 with target 0 yields None. -/
theorem c3_witness : findBlockBeforeDate chain6 0 = .ok none :=
  c3_nonpositive_target chain6 5 ⟨500, "h5"⟩ 0 rfl rfl le_rfl

/-- C4: under the preconditions of the binary search (nondecreasing
timestamps, 0 < target ≤ latest timestamp), the search returns None
exactly when block 0 has a timestamp at or after the target, i.e. when no
height of [0, latestHeight] qualifies; the chain
[100, 200, 200, 300, 400, 500] with target 50 returns None. -/
theorem c4_none_iff_genesis_at_or_after :
    (∀ (o : Oracle) (N : Int) (f : Int → RpcBlock) (target : Int),
      0 ≤ N →
      o.getLatestBlockNumber = .ok N →
      (∀ h : Int, 0 ≤ h → h ≤ N → o.getBlockByNumber h = .ok (f h)) →
      (∀ h h' : Int, 0 ≤ h → h ≤ h' → h' ≤ N →
        (f h).timestamp ≤ (f h').timestamp) →
      0 < target → target ≤ (f N).timestamp →
      (findBlockBeforeDate o target = .ok none ↔ target ≤ (f 0).timestamp)) ∧
    findBlockBeforeDate chain6 50 = .ok none := by
  constructor
  · intro o N f target hN hlatest hf mono hpos hle
    rw [findBlockBeforeDate_search o N (f N) target hlatest (hf N hN le_rfl)
      hpos hle]
    obtain ⟨res, heq, hsome, hnone⟩ :=
      whileLoop_ok_spec o.getBlockByNumber target N f hf mono
        (N + 1 - 0).toNat 0 N none le_rfl le_rfl le_rfl
        (fun h h1 h2 => absurd h2 (not_le.mpr h1))
        (fun c hc => Option.noConfusion hc)
        (fun _ => rfl)
    have heq' : searchLoop o.getBlockByNumber target 0 N none = .ok res := heq
    rw [heq']
    cases res with
    | none =>
      constructor
      · intro _
        exact hnone rfl 0 le_rfl hN
      · intro _
        rfl
    | some c =>
      obtain ⟨hc0, hcN, hcts, hchash, hclt, hmax⟩ := hsome c rfl
      constructor
      · intro habs
        exact Option.noConfusion (Except.ok.inj habs)
      · intro hts0
        exact absurd hclt
          (not_lt.mpr (le_trans hts0 (mono 0 c.n le_rfl hc0 hcN)))
  · rfl

/-- Witness for C4, instantiating the equivalence on the chain6 oracle
with target 50. -/
theorem c4_witness :
    findBlockBeforeDate chain6 50 = .ok none ↔ 50 ≤ (chain6f 0).timestamp :=
  c4_none_iff_genesis_at_or_after.1 chain6 5 chain6f 50
    (by norm_num) rfl chain6f_agrees chain6f_mono
    (by norm_num) (by decide)

set_option maxRecDepth 16384 in
/-- C5 counterexample: the input "-20000000000" trims to a signed digit
string whose value -20000000000 has magnitude 20000000000 exceeding
10000000000, so the claimed magnitude rule demands the milliseconds
interpretation floor(-20000000000 / 1000) = -20000000; but the code
compares the signed value with 1e10, so the parse returns the raw value
-20000000000 interpreted as seconds. -/
theorem c5_counterexample :
    isSignedDigits (jsTrim "-20000000000") = true ∧
    parseDecimalInt (jsTrim "-20000000000") = -20000000000 ∧
    10000000000 < (-20000000000 : Int).natAbs ∧
    parseTargetToUnixSeconds (fun _ => none) "-20000000000" =
      .ok (-20000000000) ∧
    (-20000000000 : Int) ≠ Int.fdiv (-20000000000) 1000 :=
  ⟨rfl, rfl, by norm_num, rfl, by decide⟩

set_option maxRecDepth 16384 in
/-- C5 (amended): a trimmed optional-sign digit string whose value is
exactly representable in a double (magnitude below 2^53, where the JS
Number conversion is exact) is interpreted as milliseconds and
floor-divided by 1000 exactly when its signed value exceeds
10,000,000,000 (not its magnitude: negative values are always taken as
seconds directly); a signed digit string whose magnitude reaches the
double overflow boundary fails with Invalid numeric date instead of
parsing; "1704067199" parses to 1704067199, "1704067199000" parses to
1704067199, "-20000000000" parses to -20000000000, and a one followed by
309 zeros is rejected. -/
theorem c5_numeric_parse_signed_threshold :
    (∀ (dateParseMs : String → Option Int) (s : String),
      isSignedDigits (jsTrim s) = true →
      (parseDecimalInt (jsTrim s)).natAbs < 2 ^ 53 →
      parseTargetToUnixSeconds dateParseMs s =
        .ok (if 10000000000 < parseDecimalInt (jsTrim s) then
              Int.fdiv (parseDecimalInt (jsTrim s)) 1000
            else parseDecimalInt (jsTrim s))) ∧
    (∀ (dateParseMs : String → Option Int) (s : String),
      isSignedDigits (jsTrim s) = true →
      jsNumberIsFinite (parseDecimalInt (jsTrim s)) = false →
      parseTargetToUnixSeconds dateParseMs s =
        .error "Invalid numeric date.") ∧
    parseTargetToUnixSeconds (fun _ => none) "1704067199" =
      .ok 1704067199 ∧
    parseTargetToUnixSeconds (fun _ => none) "1704067199000" =
      .ok 1704067199 ∧
    parseTargetToUnixSeconds (fun _ => none) "-20000000000" =
      .ok (-20000000000) ∧
    parseTargetToUnixSeconds (fun _ => none) overflowInput =
      .error "Invalid numeric date." := by
  refine ⟨?_, ?_, rfl, rfl, rfl, rfl⟩
  · intro d s hs hsmall
    have hfin : jsNumberIsFinite (parseDecimalInt (jsTrim s)) = true := by
      simp only [jsNumberIsFinite, decide_eq_true_eq]
      have h1 : (2 : Nat) ^ 53 ≤ 2 ^ 970 :=
        Nat.pow_le_pow_right (by norm_num) (by norm_num)
      have h2 : (2 : Nat) ^ 970 * 2 ≤ 2 ^ 1024 := by
        rw [← pow_succ]
        exact Nat.pow_le_pow_right (by norm_num) (by norm_num)
      omega
    simp only [parseTargetToUnixSeconds, if_pos hs, if_pos hfin]
  · intro d s hs hfin
    have hfin' : ¬ jsNumberIsFinite (parseDecimalInt (jsTrim s)) = true := by
      simp [hfin]
    simp only [parseTargetToUnixSeconds, if_pos hs, if_neg hfin']

set_option maxRecDepth 16384 in
/-- Witness for C5, applying the numeric branch at the input "42". -/
theorem c5_witness :
    parseTargetToUnixSeconds (fun _ => none) "42" =
      .ok (if 10000000000 < parseDecimalInt (jsTrim "42") then
            Int.fdiv (parseDecimalInt (jsTrim "42")) 1000
          else parseDecimalInt (jsTrim "42")) :=
  c5_numeric_parse_signed_threshold.1 (fun _ => none) "42" rfl (by decide)

/-- C6: any oracle failure aborts the whole operation at once and
propagates as that error: a failing latest-height fetch, a failing
latest-block fetch, and a failing probe inside the loop each turn the
entire result into the error (in the loop case the candidate accumulated
so far is discarded), and a loop error passes through findBlockBeforeDate
unchanged. -/
theorem c6_oracle_failure_aborts :
    (∀ (o : Oracle) (t : Int) (e : String),
      o.getLatestBlockNumber = .error e →
      findBlockBeforeDate o t = .error e) ∧
    (∀ (o : Oracle) (t N : Int) (e : String),
      o.getLatestBlockNumber = .ok N → o.getBlockByNumber N = .error e →
      findBlockBeforeDate o t = .error e) ∧
    (∀ (blockAt : Int → Except String RpcBlock) (t : Int) (fuel : Nat)
        (lo hi : Int) (cand : Option Candidate) (e : String),
      lo ≤ hi → blockAt (bigintShr1 (lo + hi)) = .error e →
      whileLoop blockAt t (fuel + 1) lo hi cand = .error e) ∧
    (∀ (o : Oracle) (t N : Int) (latest : RpcBlock) (e : String),
      o.getLatestBlockNumber = .ok N → o.getBlockByNumber N = .ok latest →
      0 < t → t ≤ latest.timestamp →
      searchLoop o.getBlockByNumber t 0 N none = .error e →
      findBlockBeforeDate o t = .error e) := by
  refine ⟨?_, ?_, ?_, ?_⟩
  · intro o t e he
    unfold findBlockBeforeDate
    rw [he]
  · intro o t N e h1 h2
    unfold findBlockBeforeDate
    simp only [h1, h2]
  · intro blockAt t fuel lo hi cand e hlh he
    simp only [whileLoop, if_pos hlh, he]
  · intro o t N latest e h1 h2 hpos hle hloop
    rw [findBlockBeforeDate_search o N latest t h1 h2 hpos hle, hloop]

/-- Witness for C6: on the chain6 oracle with a failure injected at height
4, the second probe of the search for target 250, the whole operation
surfaces the transport error. -/
theorem c6_witness :
    findBlockBeforeDate chain6FailAt4 250 = .error "RPC HTTP 500" :=
  c6_oracle_failure_aborts.2.2.2 chain6FailAt4 250 5 ⟨500, "h5"⟩
    "RPC HTTP 500" rfl rfl (by norm_num) (by decide) rfl

/-- Nat.log2 is monotone. -/
theorem log2_mono {m n : Nat} (h : m ≤ n) : Nat.log2 m ≤ Nat.log2 n := by
  simp only [Nat.log2_eq_log_two]
  exact Nat.log_mono_right h

/-- The recurrence of Nat.log2 on arguments of at least 2. -/
theorem log2_rec {n : Nat} (h : 2 ≤ n) : Nat.log2 n = Nat.log2 (n / 2) + 1 := by
  rw [Nat.log2]
  simp [h]

/-- An empty interval is never probed, whatever the fuel. -/
theorem whileLoopProbes_empty (blockAt : Int → Except String RpcBlock)
    (target : Int) (fuel : Nat) (lo hi : Int) (h : hi < lo) :
    whileLoopProbes blockAt target fuel lo hi = [] := by
  cases fuel with
  | zero => rfl
  | succ fuel => simp only [whileLoopProbes, if_neg (not_le.mpr h)]

/-- Probe-count bound: with fuel at least the interval size, the loop
makes at most log2 of the interval size plus one oracle calls, because
each iteration at least halves the interval. -/
theorem whileLoopProbes_length (blockAt : Int → Except String RpcBlock)
    (target : Int) :
    ∀ (fuel : Nat) (lo hi : Int), (hi + 1 - lo).toNat ≤ fuel →
      (whileLoopProbes blockAt target fuel lo hi).length ≤
        Nat.log2 (hi + 1 - lo).toNat + 1 := by
  intro fuel
  induction fuel with
  | zero =>
    intro lo hi hfuel
    simp [whileLoopProbes]
  | succ fuel ih =>
    intro lo hi hfuel
    by_cases hlh : lo ≤ hi
    · have hmid := bigintShr1_mem hlh
      have hmid2 : bigintShr1 (lo + hi) = (lo + hi) / 2 := bigintShr1_eq _
      simp only [whileLoopProbes, if_pos hlh, List.length_cons]
      refine Nat.succ_le_succ ?_
      cases hb : blockAt (bigintShr1 (lo + hi)) with
      | error e => simp
      | ok b =>
        by_cases hts : b.timestamp < target
        · simp only [if_pos hts]
          by_cases hempty : hi < bigintShr1 (lo + hi) + 1
          · rw [whileLoopProbes_empty blockAt target fuel _ hi hempty]
            simp
          · have hrec := ih (bigintShr1 (lo + hi) + 1) hi (by omega)
            have hlen : (hi + 1 - (bigintShr1 (lo + hi) + 1)).toNat ≤
                (hi + 1 - lo).toNat / 2 := by omega
            have h2 : 2 ≤ (hi + 1 - lo).toNat := by omega
            calc (whileLoopProbes blockAt target fuel
                    (bigintShr1 (lo + hi) + 1) hi).length
                ≤ Nat.log2 (hi + 1 - (bigintShr1 (lo + hi) + 1)).toNat + 1 :=
                  hrec
              _ ≤ Nat.log2 ((hi + 1 - lo).toNat / 2) + 1 :=
                  Nat.succ_le_succ (log2_mono hlen)
              _ = Nat.log2 (hi + 1 - lo).toNat := (log2_rec h2).symm
        · simp only [if_neg hts]
          by_cases hempty : bigintShr1 (lo + hi) - 1 < lo
          · rw [whileLoopProbes_empty blockAt target fuel lo _ hempty]
            simp
          · have hrec := ih lo (bigintShr1 (lo + hi) - 1) (by omega)
            have hlen : (bigintShr1 (lo + hi) - 1 + 1 - lo).toNat ≤
                (hi + 1 - lo).toNat / 2 := by omega
            have h2 : 2 ≤ (hi + 1 - lo).toNat := by omega
            calc (whileLoopProbes blockAt target fuel lo
                    (bigintShr1 (lo + hi) - 1)).length
                ≤ Nat.log2 (bigintShr1 (lo + hi) - 1 + 1 - lo).toNat + 1 :=
                  hrec
              _ ≤ Nat.log2 ((hi + 1 - lo).toNat / 2) + 1 :=
                  Nat.succ_le_succ (log2_mono hlen)
              _ = Nat.log2 (hi + 1 - lo).toNat := (log2_rec h2).symm
    · simp [whileLoopProbes, if_neg hlh]

/-- C7: the loop terminates because each iteration strictly shrinks the
interval [lo, hi] (setting lo to mid + 1 or hi to mid - 1 both make the
interval strictly smaller), and in total the loop issues at most
log2 of the interval size plus one oracle calls, O(log latestHeight) for
the initial interval [0, latestHeight]. -/
theorem c7_terminates_log_probes :
    (∀ lo hi : Int, lo ≤ hi →
      (hi + 1 - (bigintShr1 (lo + hi) + 1)).toNat < (hi + 1 - lo).toNat ∧
      (bigintShr1 (lo + hi) - 1 + 1 - lo).toNat < (hi + 1 - lo).toNat) ∧
    (∀ (blockAt : Int → Except String RpcBlock) (target lo hi : Int),
      searchCalls blockAt target lo hi ≤ Nat.log2 (hi + 1 - lo).toNat + 1) := by
  constructor
  · intro lo hi hlh
    have hmid2 : bigintShr1 (lo + hi) = (lo + hi) / 2 := bigintShr1_eq _
    omega
  · intro blockAt target lo hi
    exact whileLoopProbes_length blockAt target _ lo hi le_rfl

/-- Witness for C7 on the interval [0, 5] and the chain6 oracle with
target 250. -/
theorem c7_witness :
    (((5 : Int) + 1 - (bigintShr1 (0 + 5) + 1)).toNat <
        ((5 : Int) + 1 - 0).toNat ∧
      (bigintShr1 ((0 : Int) + 5) - 1 + 1 - 0).toNat <
        ((5 : Int) + 1 - 0).toNat) ∧
    searchCalls chain6.getBlockByNumber 250 0 5 ≤
      Nat.log2 ((5 : Int) + 1 - 0).toNat + 1 :=
  ⟨c7_terminates_log_probes.1 0 5 (by norm_num),
   c7_terminates_log_probes.2 chain6.getBlockByNumber 250 0 5⟩

/-- C8: the probe point is the floor of the arithmetic mean of the current
bounds, computed on unbounded integers: the bigint shift (lo + hi) >> 1n
is division by two rounded toward negative infinity, which on nonnegative
bounds equals plain integer division and is characterized as the floor of
the mean by the two-sided bound; no overflow is possible since Int is
unbounded. -/
theorem c8_midpoint_floor_mean (lo hi : Int) (_hlo : 0 ≤ lo) (_hhi : 0 ≤ hi) :
    bigintShr1 (lo + hi) = (lo + hi) / 2 ∧
    2 * bigintShr1 (lo + hi) ≤ lo + hi ∧
    lo + hi < 2 * bigintShr1 (lo + hi) + 2 := by
  rw [bigintShr1_eq]
  exact ⟨rfl, by omega, by omega⟩

/-- Witness for C8 at lo = 3, hi = 8. -/
theorem c8_witness :
    bigintShr1 ((3 : Int) + 8) = ((3 : Int) + 8) / 2 ∧
    2 * bigintShr1 ((3 : Int) + 8) ≤ (3 : Int) + 8 ∧
    (3 : Int) + 8 < 2 * bigintShr1 ((3 : Int) + 8) + 2 :=
  c8_midpoint_floor_mean 3 8 (by norm_num) (by norm_num)

/-- C9: determinism and extensionality: the result of findBlockBeforeDate
is a function of the oracle state (the latest-height answer and the
height-to-block map) and the target alone, so invocations on oracles with
identical state and identical targets return identical results. -/
theorem c9_deterministic (o1 o2 : Oracle)
    (hL : o1.getLatestBlockNumber = o2.getLatestBlockNumber)
    (hB : ∀ h : Int, o1.getBlockByNumber h = o2.getBlockByNumber h)
    (t : Int) :
    findBlockBeforeDate o1 t = findBlockBeforeDate o2 t := by
  have hBf : o1.getBlockByNumber = o2.getBlockByNumber := funext hB
  unfold findBlockBeforeDate
  rw [hL, hBf]

/-- Witness for C9 on the chain6 oracle with target 250. -/
theorem c9_witness :
    findBlockBeforeDate chain6 250 = findBlockBeforeDate chain6 250 :=
  c9_deterministic chain6 chain6 rfl (fun _ => rfl) 250

/-- Probes of the loop on [lo, hi] stay inside [lo, hi]. -/
theorem whileLoopProbes_mem (blockAt : Int → Except String RpcBlock)
    (target : Int) :
    ∀ (fuel : Nat) (lo hi m : Int),
      m ∈ whileLoopProbes blockAt target fuel lo hi → lo ≤ m ∧ m ≤ hi := by
  intro fuel
  induction fuel with
  | zero =>
    intro lo hi m hm
    simp [whileLoopProbes] at hm
  | succ fuel ih =>
    intro lo hi m hm
    by_cases hlh : lo ≤ hi
    · have hmid := bigintShr1_mem hlh
      simp only [whileLoopProbes, if_pos hlh, List.mem_cons] at hm
      rcases hm with hm | hm
      · subst hm; exact hmid
      · cases hb : blockAt (bigintShr1 (lo + hi)) with
        | error e =>
          rw [hb] at hm
          simp at hm
        | ok b =>
          rw [hb] at hm
          by_cases hts : b.timestamp < target
          · simp only [if_pos hts] at hm
            obtain ⟨h1, h2⟩ := ih _ _ _ hm
            exact ⟨by omega, h2⟩
          · simp only [if_neg hts] at hm
            obtain ⟨h1, h2⟩ := ih _ _ _ hm
            exact ⟨h1, by omega⟩
    · simp [whileLoopProbes, if_neg hlh] at hm

/-- C10: every height passed to the block oracle during the search lies in
the closed range [0, latestHeight]: the initial latest-block fetch is at
latestHeight itself, and every loop probe stays inside the current
[lo, hi] interval, which starts at [0, latestHeight] and only shrinks
inward. -/
theorem c10_probes_in_range (blockAt : Int → Except String RpcBlock)
    (target N m : Int) (hN : 0 ≤ N)
    (hm : m ∈ N :: searchProbes blockAt target 0 N) :
    0 ≤ m ∧ m ≤ N := by
  rcases List.mem_cons.mp hm with hm | hm
  · subst hm; exact ⟨hN, le_rfl⟩
  · exact whileLoopProbes_mem blockAt target _ _ _ _ hm

/-- Witness for C10: height 4, the second loop probe on chain6 with target
250, lies within [0, 5]. -/
theorem c10_witness : (0 : Int) ≤ 4 ∧ (4 : Int) ≤ 5 :=
  c10_probes_in_range chain6.getBlockByNumber 250 5 4 (by norm_num)
    (by decide)

end EthBlockSearch
